import Mathlib

/-!
Verification of the training/evaluation orchestration engine of
Chess-diagram-to-FEN (`src/board_orientation/train.py` and
`src/fen_recognition/train.py`, which are near-identical instances of one
orchestration pattern).

The shallow embedding below models, from the source:
the metric evaluator `get_accuracy_and_loss`; the per-example correctness
predicates of the two tasks; the best-snapshot update of the training loop;
the bounded step loop with its mid-pass break and forced final evaluation;
the reference semantics of `model.state_dict()` against the in-place
parameter updates of `optimizer.step()`; and the end-of-run reporter.
Machine reals are modelled by rationals; exceptions by `Except`.
-/

namespace ChessDiagramToFen

/-! ## Metric evaluator (`get_accuracy_and_loss`) -/

/-- Errors that can escape an evaluation call: an exception propagating out of the
model's forward pass, or the `ZeroDivisionError` raised by the final division when
the loader yielded no samples. -/
inductive EvalError (E : Type) where
  | forward : E → EvalError E
  | zeroDivision : EvalError E
deriving DecidableEq

/-- The forward pass `output = model(input)` applied to one batch, elementwise over
the batch's examples, propagating any exception the model raises. -/
def forwardBatch {I O T E : Type} (model : I → Except E O) :
    List (I × T) → Except E (List O)
  | [] => Except.ok []
  | p :: rest =>
    match model p.1 with
    | Except.error e => Except.error e
    | Except.ok o =>
      match forwardBatch model rest with
      | Except.error e => Except.error e
      | Except.ok os => Except.ok (o :: os)

/-- The body of the `with torch.no_grad(): for input, target in loader:` loop of
`get_accuracy_and_loss`: folds the batches through the accumulator
`(num_correct, loss, num_samples)` exactly as the source does —
`loss += criterion(output, target).item() * target.size(0)`,
`num_correct += ` the number of examples of the batch passing the task's
per-example correctness test, and `num_samples += target.size(0)`. -/
def evalLoop {I O T E : Type} (model : I → Except E O)
    (criterion : List (O × T) → ℚ) (correct : O → T → Bool) :
    List (List (I × T)) → ℕ × ℚ × ℕ → Except E (ℕ × ℚ × ℕ)
  | [], acc => Except.ok acc
  | batch :: rest, (numCorrect, loss, numSamples) =>
    match forwardBatch model batch with
    | Except.error e => Except.error e
    | Except.ok outputs =>
      let pairs := outputs.zip (batch.map Prod.snd)
      evalLoop model criterion correct rest
        (numCorrect + (pairs.filter (fun q => correct q.1 q.2)).length,
         loss + criterion pairs * (batch.length : ℚ),
         numSamples + batch.length)

/-- The evaluator `get_accuracy_and_loss(loader, model, criterion)` of both training
scripts.  The model's training-mode flag is threaded explicitly: `modeIn` is the flag
immediately before the call; the call performs `model.eval()` (so every forward pass
runs with the flag `false`), runs the accumulation loop, performs `model.train()`
(flag `true`), and finally divides the accumulators.  The returned `Bool` is the flag
on exit: `false` when an exception escapes the forward pass (the `model.train()` line
is never reached — there is no `try/finally`), and `true` on the other paths,
including the `ZeroDivisionError` path, since the division on the `return` line runs
after `model.train()`. -/
def get_accuracy_and_loss {I O T E : Type} (loader : List (List (I × T)))
    (model : Bool → I → Except E O) (criterion : List (O × T) → ℚ)
    (correct : O → T → Bool) (modeIn : Bool) :
    Except (EvalError E) (ℚ × ℚ) × Bool :=
  match evalLoop (model false) criterion correct loader (0, 0, 0) with
  | Except.error e => (Except.error (EvalError.forward e), false)
  | Except.ok (numCorrect, loss, numSamples) =>
    if numSamples = 0 then (Except.error EvalError.zeroDivision, true)
    else (Except.ok ((numCorrect : ℚ) / (numSamples : ℚ), loss / (numSamples : ℚ)), true)

/-- A model whose forward pass is the pure function `f` on every input, in either
mode, raising no exception. -/
def pureModel {I O : Type} (f : I → O) : Bool → I → Except Unit O :=
  fun _ i => Except.ok (f i)

/-! Specification-side quantities for the evaluator, written as the spec phrases
them ("sum over batches of per-batch loss times batch example count", "number of
correct examples", "total example count"), to be compared with the fold above. -/

/-- Total example count of a loader: the sum of the batch sizes. -/
def totalCount {I T : Type} (loader : List (List (I × T))) : ℕ :=
  (loader.map List.length).sum

/-- The (output, target) pairs of one batch under the pure forward `f`. -/
def batchPairs {I O T : Type} (f : I → O) (batch : List (I × T)) : List (O × T) :=
  batch.map (fun p => (f p.1, p.2))

/-- Number of examples of the whole loader passing the correctness test. -/
def correctTotal {I O T : Type} (f : I → O) (correct : O → T → Bool)
    (loader : List (List (I × T))) : ℕ :=
  (loader.map (fun b => ((batchPairs f b).filter (fun q => correct q.1 q.2)).length)).sum

/-- Sum over batches of the per-batch loss weighted by the batch example count. -/
def weightedLossSum {I O T : Type} (f : I → O) (criterion : List (O × T) → ℚ)
    (loader : List (List (I × T))) : ℚ :=
  (loader.map (fun b => criterion (batchPairs f b) * (b.length : ℚ))).sum

/-! ## Task-specific correctness predicates -/

/-- Per-example correctness of the orientation task, line 31 of
`board_orientation/train.py`: `torch.abs(output - target) < 0.5`. -/
def correctOrientation (output target : ℚ) : Bool :=
  decide (|output - target| < 1 / 2)

/-- The twelve chess piece kinds appearing on a decoded board. -/
inductive Pc where
  | wP | wN | wB | wR | wQ | wK | bP | bN | bB | bR | bQ | bK
deriving DecidableEq

/-- A rank (board row) of decoded squares; `none` is an empty square. -/
abbrev Rank := List (Option Pc)

/-- A decoded board: its ranks listed top rank first, as FEN does. -/
abbrev Board := List Rank

/-- ASCII code of the letter FEN uses for each piece kind
(uppercase for white, lowercase for black). -/
def pieceChar : Pc → ℕ
  | Pc.wP => 80
  | Pc.wN => 78
  | Pc.wB => 66
  | Pc.wR => 82
  | Pc.wQ => 81
  | Pc.wK => 75
  | Pc.bP => 112
  | Pc.bN => 110
  | Pc.bB => 98
  | Pc.bR => 114
  | Pc.bQ => 113
  | Pc.bK => 107

/-- Modelled from the spec: the rank encoding used by
`common.tensor_to_chess_board(...).fen()` (the decoder `src/common.py` and the
python-chess `Board.fen` it calls are not among the provided sources; the spec
describes the comparison as textual equality of decoded board-position strings).
FEN writes a rank left to right, rendering a piece as its letter and each maximal
run of `n` empty squares as the digit `n`; characters are modelled by their ASCII
codes, so the digit `n` is `48 + n`.  `encRank r n` encodes the remaining squares
`r` with `n` empty squares pending. -/
def encRank : Rank → ℕ → List ℕ
  | [], 0 => []
  | [], n + 1 => [48 + (n + 1)]
  | none :: rest, n => encRank rest (n + 1)
  | some p :: rest, 0 => pieceChar p :: encRank rest 0
  | some p :: rest, n + 1 => (48 + (n + 1)) :: pieceChar p :: encRank rest 0

/-- Modelled from the spec: the full FEN string of a decoded board — the encoded
ranks joined by a slash (ASCII 47), followed by the constant remainder
" w - - 0 1" that the decoder always produces (it fills only the piece placement,
so side to move, castling, en passant and the move counters take their defaults). -/
def fen (b : Board) : List ℕ :=
  List.intercalate [47] (b.map (fun r => encRank r 0)) ++
    [32, 119, 32, 45, 32, 45, 32, 48, 32, 49]

/-- Per-example correctness of the board-recognition task, lines 34-38 of
`fen_recognition/train.py`: the decoded output board's FEN string equals the
decoded target board's FEN string. -/
def correctBoard (o t : Board) : Bool := fen o == fen t

/-- A decoded chess board has eight ranks of eight squares. -/
def wellFormed (b : Board) : Prop := b.length = 8 ∧ ∀ r ∈ b, r.length = 8

/-- Partial inverse of `pieceChar`, used to prove the FEN encoding injective. -/
def pieceOfChar : ℕ → Option Pc
  | 80 => some Pc.wP
  | 78 => some Pc.wN
  | 66 => some Pc.wB
  | 82 => some Pc.wR
  | 81 => some Pc.wQ
  | 75 => some Pc.wK
  | 112 => some Pc.bP
  | 110 => some Pc.bN
  | 98 => some Pc.bB
  | 114 => some Pc.bR
  | 113 => some Pc.bQ
  | 107 => some Pc.bK
  | _ => none

/-- Decoder of `encRank`, witnessing that the rank encoding loses no information:
a digit `1`..`8` stands for that many empty squares, a piece letter for its piece. -/
def decRank : List ℕ → Option Rank
  | [] => some []
  | c :: rest =>
    if 49 ≤ c ∧ c ≤ 56 then
      (decRank rest).map (fun r => List.replicate (c - 48) none ++ r)
    else
      match pieceOfChar c with
      | some p => (decRank rest).map (fun r => some p :: r)
      | none => none

/-! ## Best-snapshot tracker -/

/-- One observation step of the best tracker, lines 137-139 resp. 149-151 of the
training scripts: `if test_acc > best_acc: best_acc = test_acc;
best_model = <state>`. -/
def bestUpdate {σ : Type} (best : ℚ × Option σ) (obs : ℚ × σ) : ℚ × Option σ :=
  if best.1 < obs.1 then (obs.1, some obs.2) else best

/-- Folding a run's evaluation results through the tracker, from the initial
`best_acc = -1.0`, `best_model = None`. -/
def trackBest {σ : Type} (obss : List (ℚ × σ)) : ℚ × Option σ :=
  obss.foldl bestUpdate (-1, none)

/-! ## Training loop controller -/

/-- The loop state the claims need: the step counter `num_steps` and the list of
the `num_steps` values at which an evaluation was performed. -/
structure LoopState where
  numSteps : ℕ
  evalSteps : List ℕ
deriving DecidableEq

/-- One pass of the `for i, (input, target) in enumerate(train_loader):` body,
starting at batch index `i` with `rem` batches left in the pass.  Each batch
performs an optimizer and a scheduler step (`num_steps += 1`), then evaluates when
`(i + 1) % TEST_ACC_FREQ == 0 or num_steps >= total_steps`, and breaks out of the
pass the moment `num_steps >= total_steps` (lines 96-143 resp. 107-155). -/
def runBatches (total freq : ℕ) : ℕ → ℕ → LoopState → LoopState
  | _, 0, s => s
  | i, rem + 1, s =>
    let ns := s.numSteps + 1
    let evals :=
      if (i + 1) % freq = 0 ∨ total ≤ ns then s.evalSteps ++ [ns] else s.evalSteps
    if total ≤ ns then ⟨ns, evals⟩
    else runBatches total freq (i + 1) rem ⟨ns, evals⟩

/-- The `while num_steps < total_steps:` loop, each iteration being one pass over
the `batches` batches the training loader yields.  `fuel` bounds the number of
passes the model executes; `none` means the bound was exhausted with the loop
condition still true. -/
def runLoop (total freq batches : ℕ) : ℕ → LoopState → Option LoopState
  | 0, s => if s.numSteps < total then none else some s
  | fuel + 1, s =>
    if s.numSteps < total then
      runLoop total freq batches fuel (runBatches total freq 0 batches s)
    else some s

/-- The state on entering the loop: `num_steps = 0`, no evaluation yet. -/
def initLoopState : LoopState := ⟨0, []⟩

/-! ## Live model storage, `state_dict`, and the optimizer's in-place update -/

/-- The live model: its parameters are storage cells, addressed by their
position.  All tensor values live in this storage. -/
structure LiveModel where
  params : List ℚ
deriving DecidableEq

/-- `model.state_dict()`.  Per the PyTorch contract the returned dictionary's
entries are references that share storage with the live parameter tensors, not
copies of their values; modelled as the list of storage addresses. -/
def state_dict (m : LiveModel) : List ℕ := List.range m.params.length

/-- Reading the values a captured state dict holds at some later time
dereferences its tensor references against the live model's current storage. -/
def readStateDict (d : List ℕ) (m : LiveModel) : List ℚ :=
  d.map (fun a => m.params.getD a 0)

/-- `optimizer.step()`: AdamW updates every parameter with in-place tensor
operations, writing the new values into the same storage cells. -/
def optimizerStep (upd : ℚ → ℚ) (m : LiveModel) : LiveModel :=
  ⟨m.params.map upd⟩

/-! ## Run reporter and schedule construction -/

/-- A configuration error a run can surface. -/
inductive ConfigError where
  | valueError : ConfigError
deriving DecidableEq

/-- What the end-of-run persistence writes: the checkpoint file whose name embeds
the best accuracy, containing whatever `best_model` holds — possibly `None`. -/
structure SavedCheckpoint (σ : Type) where
  bestAcc : ℚ
  contents : Option σ
deriving DecidableEq

/-- The run reporter, lines 145-151 resp. 157-160 of the training scripts: it
creates the output directory and calls `torch.save(best_model, file_name)`.
There is no check that a best snapshot exists; `torch.save` serializes `None`
successfully, so the reporter raises no configuration error on any input. -/
def runReporter {σ : Type} (bestAcc : ℚ) (bestModel : Option σ) :
    Except ConfigError (SavedCheckpoint σ) :=
  Except.ok ⟨bestAcc, bestModel⟩

/-- The schedule construction `OneCycleLR(optimizer, max_lr, total_steps)` on
lines 83-85 resp. 94-96, which runs before the loop: PyTorch validates the budget
and raises `ValueError("Expected positive integer total_steps, ...")` unless
`total_steps` is a positive integer. -/
def oneCycleLR (totalSteps : ℤ) : Except ConfigError Unit :=
  if totalSteps ≤ 0 then Except.error ConfigError.valueError else Except.ok ()

/-! ## Evaluator lemmas -/

/-- A pure, exception-free forward pass maps over the batch. -/
theorem forwardBatch_pure {I O T : Type} (f : I → O) (m : Bool) (batch : List (I × T)) :
    forwardBatch (pureModel f m) batch =
      Except.ok (batch.map (fun p => f p.1)) := by
  induction batch with
  | nil => rfl
  | cons p rest ih => simp [forwardBatch, pureModel, ih]

/-- The accumulation loop under a pure forward computes the specification-side
totals on top of its incoming accumulator. -/
theorem evalLoop_pure {I O T : Type} (f : I → O) (m : Bool) (criterion : List (O × T) → ℚ)
    (correct : O → T → Bool) (loader : List (List (I × T))) (nc : ℕ) (L : ℚ) (ns : ℕ) :
    evalLoop (pureModel f m) criterion correct loader (nc, L, ns) =
      Except.ok (nc + correctTotal f correct loader,
                 L + weightedLossSum f criterion loader,
                 ns + totalCount loader) := by
  induction loader generalizing nc L ns with
  | nil => simp [evalLoop, correctTotal, weightedLossSum, totalCount]
  | cons b rest ih =>
    rw [evalLoop, forwardBatch_pure]
    simp only [List.zip_map', ih]
    simp only [correctTotal, weightedLossSum, totalCount, batchPairs,
      List.map_cons, List.sum_cons, Except.ok.injEq, Prod.mk.injEq]
    refine ⟨by omega, by ring, by omega⟩

/-- On a loader with at least one sample, the evaluator under a pure forward
returns exactly the specification-side accuracy and weighted mean loss. -/
theorem gaal_pure {I O T : Type} (f : I → O) (criterion : List (O × T) → ℚ)
    (correct : O → T → Bool) (loader : List (List (I × T))) (m : Bool)
    (h : totalCount loader ≠ 0) :
    get_accuracy_and_loss loader (pureModel f) criterion correct m =
      (Except.ok ((correctTotal f correct loader : ℚ) / (totalCount loader : ℚ),
                  weightedLossSum f criterion loader / (totalCount loader : ℚ)),
       true) := by
  unfold get_accuracy_and_loss
  rw [evalLoop_pure]
  simp [h]

/-- A loader with a batch, all of whose batches are nonempty, yields samples. -/
theorem totalCount_pos {I T : Type} (loader : List (List (I × T)))
    (hne : loader ≠ []) (hbs : ∀ b ∈ loader, b ≠ []) : 0 < totalCount loader := by
  cases loader with
  | nil => exact absurd rfl hne
  | cons b rest =>
    have hb : 0 < b.length := List.length_pos.mpr (hbs b (by simp))
    simp only [totalCount, List.map_cons, List.sum_cons]
    omega

/-- No batch contributes more correct examples than it has examples. -/
theorem correctTotal_le_totalCount {I O T : Type} (f : I → O) (correct : O → T → Bool)
    (loader : List (List (I × T))) :
    correctTotal f correct loader ≤ totalCount loader := by
  induction loader with
  | nil => exact Nat.le_refl 0
  | cons b rest ih =>
    simp only [correctTotal, totalCount, List.map_cons, List.sum_cons] at ih ⊢
    have hf : ((batchPairs f b).filter (fun q => correct q.1 q.2)).length ≤ b.length := by
      calc ((batchPairs f b).filter (fun q => correct q.1 q.2)).length
          ≤ (batchPairs f b).length := List.length_filter_le _ _
        _ = b.length := List.length_map b _
    omega

/-! ## Claim theorems -/

/-- C10: `get_accuracy_and_loss` on a loader yielding zero batches (for example a
test set smaller than the batch size with undersized batches dropped) reaches the
final division with `num_samples = 0` and fails with a `ZeroDivisionError` rather
than returning a value. -/
theorem C10_zero_batches_division_fails {I O T E : Type}
    (model : Bool → I → Except E O) (criterion : List (O × T) → ℚ)
    (correct : O → T → Bool) (modeIn : Bool) :
    get_accuracy_and_loss ([] : List (List (I × T))) model criterion correct modeIn =
      (Except.error EvalError.zeroDivision, true) := rfl

/-- C9: two consecutive calls of the evaluator with the same loader, model and
criterion return identical `(accuracy, mean_loss)` results — the second call
starting from the mode flag the first call left behind.  The evaluator performs
`model.eval()` before any forward pass, so the incoming flag never influences the
computation, and the evaluator is a pure function of its remaining inputs. -/
theorem C9_evaluation_deterministic {I O T E : Type} (loader : List (List (I × T)))
    (model : Bool → I → Except E O) (criterion : List (O × T) → ℚ)
    (correct : O → T → Bool) (m0 : Bool) :
    (get_accuracy_and_loss loader model criterion correct
        ((get_accuracy_and_loss loader model criterion correct m0).2)).1 =
      (get_accuracy_and_loss loader model criterion correct m0).1 := rfl

/-- C4 counterexample: a model whose training-mode flag is `false` (eval mode)
immediately before the call exits a successful evaluation with the flag `true` —
`get_accuracy_and_loss` unconditionally executes `model.train()` on the normal
path, so the flag on exit differs from its value immediately before the call. -/
theorem C4_mode_not_restored :
    (get_accuracy_and_loss [[((0 : ℚ), (0 : ℚ))]] (pureModel id) (fun _ => 0)
        correctOrientation false).2 = true := rfl

/-- C4 (amended): the flag on exit is determined by the exit path alone, not by the
pre-call flag: it is `false` exactly when an exception escapes the forward pass
(there is no `try/finally`, so `model.train()` is skipped), and `true` on every
other path — equal to the pre-call value only when the model was in training mode
before the call, which is the case at every call site in these scripts. -/
theorem C4_mode_on_exit {I O T E : Type} (loader : List (List (I × T)))
    (model : Bool → I → Except E O) (criterion : List (O × T) → ℚ)
    (correct : O → T → Bool) (modeIn : Bool) :
    (get_accuracy_and_loss loader model criterion correct modeIn).2 =
      (match (get_accuracy_and_loss loader model criterion correct modeIn).1 with
        | Except.error (EvalError.forward _) => false
        | _ => true) := by
  unfold get_accuracy_and_loss
  cases evalLoop (model false) criterion correct loader (0, 0, 0) with
  | error e => rfl
  | ok x =>
    obtain ⟨nc, L, ns⟩ := x
    by_cases h : ns = 0 <;> simp [h]

/-- C6: in the orientation-task evaluator an example counts as correct exactly when
the absolute difference between output and target is strictly below `0.5`; output
`0.3` against target `0` is correct, output `0.7` against target `0` is not, and
the evaluator run on that two-example batch accordingly returns accuracy `1/2`. -/
theorem C6_orientation_margin :
    (∀ o t : ℚ, correctOrientation o t = true ↔ |o - t| < 1 / 2) ∧
    correctOrientation (3 / 10) 0 = true ∧
    correctOrientation (7 / 10) 0 = false ∧
    (get_accuracy_and_loss [[((3 / 10 : ℚ), (0 : ℚ)), (7 / 10, 0)]] (pureModel id)
        (fun _ => 0) correctOrientation true).1 = Except.ok (1 / 2, 0) := by
  have hiff : ∀ o t : ℚ, correctOrientation o t = true ↔ |o - t| < 1 / 2 := by
    intro o t
    simp [correctOrientation]
  have h3 : correctOrientation (3 / 10) 0 = true := by
    rw [hiff, sub_zero, abs_of_nonneg (by norm_num)]
    norm_num
  have h7 : correctOrientation (7 / 10) 0 = false := by
    rw [Bool.eq_false_iff, Ne, hiff, sub_zero, abs_of_nonneg (by norm_num)]
    norm_num
  refine ⟨hiff, h3, h7, ?_⟩
  rw [gaal_pure id (fun _ => 0) correctOrientation _ true (by norm_num [totalCount])]
  norm_num [correctTotal, totalCount, weightedLossSum, batchPairs, List.filter_cons, h3, h7]

/-- C2: the best tracker's held pair changes exactly when the observed accuracy is
strictly greater than the held one (in particular a tie never replaces it, so the
earliest best is preserved), and on the accuracy sequence
`[0.2, 0.5, 0.4, 0.5, 0.9]` (observations labelled 1..5) it holds accuracy `0.5`
captured at observation 2 after the second, third and fourth observations, and
`0.9` after the fifth. -/
theorem C2_best_tracker :
    (∀ (σ : Type) (best : ℚ × Option σ) (obs : ℚ × σ),
      bestUpdate best obs ≠ best ↔ best.1 < obs.1) ∧
    (∀ (σ : Type) (best : ℚ × Option σ) (obs : ℚ × σ),
      best.1 < obs.1 → bestUpdate best obs = (obs.1, some obs.2)) ∧
    trackBest (([(1/5, 1), (1/2, 2), (4/10, 3), (1/2, 4), (9/10, 5)] :
        List (ℚ × ℕ)).take 2) = (1/2, some 2) ∧
    trackBest (([(1/5, 1), (1/2, 2), (4/10, 3), (1/2, 4), (9/10, 5)] :
        List (ℚ × ℕ)).take 3) = (1/2, some 2) ∧
    trackBest (([(1/5, 1), (1/2, 2), (4/10, 3), (1/2, 4), (9/10, 5)] :
        List (ℚ × ℕ)).take 4) = (1/2, some 2) ∧
    trackBest ([(1/5, 1), (1/2, 2), (4/10, 3), (1/2, 4), (9/10, 5)] :
        List (ℚ × ℕ)) = (9/10, some 5) := by
  refine ⟨fun σ best obs => ?_, fun σ best obs h => ?_,
    by norm_num [trackBest, List.foldl, bestUpdate],
    by norm_num [trackBest, List.foldl, bestUpdate],
    by norm_num [trackBest, List.foldl, bestUpdate],
    by norm_num [trackBest, List.foldl, bestUpdate]⟩
  · unfold bestUpdate
    by_cases h : best.1 < obs.1
    · have hne : (obs.1, some obs.2) ≠ best := by
        intro heq
        have h1 : obs.1 = best.1 := congrArg Prod.fst heq
        rw [h1] at h
        exact lt_irrefl _ h
      simp [h, hne]
    · simp [h]
  · unfold bestUpdate
    simp [h]

/-- C2 witness: the tracker, holding the initial `(-1, None)`, replaces it with an
observed `(1/5, state 1)` since `-1 < 1/5`. -/
theorem C2_best_tracker_witness :
    ((-1 : ℚ) < 1/5) ∧
      bestUpdate ((-1 : ℚ), (none : Option ℕ)) (1/5, 1) = (1/5, some 1) :=
  ⟨by norm_num, C2_best_tracker.2.1 ℕ (-1, none) (1/5, 1) (by norm_num)⟩

/-- C1: the snapshot captured by `best_model = model.state_dict()` is not a value
copy.  With the live parameter storage holding `[0]` at capture, a single
subsequent in-place optimizer step `w := w + 1` changes what the captured snapshot
reads (`[1]`) away from the values at the moment of capture (`[0]`): `state_dict`
returns references sharing storage with the live parameters, so later parameter
updates retroactively alter the previously captured snapshot. -/
theorem C1_snapshot_not_value_copy :
    readStateDict (state_dict ⟨[0]⟩) (optimizerStep (fun w => w + 1) ⟨[0]⟩) ≠
      readStateDict (state_dict ⟨[0]⟩) ⟨[0]⟩ := by
  simp [readStateDict, state_dict, optimizerStep, List.range_succ]

/-- C8 counterexample: handed the initial "none" best (accuracy `-1`, no
snapshot), the run reporter completes persistence silently — `torch.save`
serializes `None` without complaint — instead of surfacing a configuration
error. -/
theorem C8_reporter_silent_on_none :
    runReporter (-1 : ℚ) (none : Option ℕ) =
      Except.ok ⟨-1, none⟩ := rfl

/-- C8 (amended): the run reporter itself performs no check and never raises — it
persists whatever snapshot it is handed, including `None`; the only configuration
error a run with a non-positive step budget surfaces is raised earlier, by the
one-cycle schedule construction, before the loop or the reporter run. -/
theorem C8_reporter_and_schedule :
    (∀ (σ : Type) (acc : ℚ) (best : Option σ),
      runReporter acc best = Except.ok ⟨acc, best⟩) ∧
    (∀ t : ℤ, t ≤ 0 → oneCycleLR t = Except.error ConfigError.valueError) := by
  refine ⟨fun σ acc best => rfl, fun t ht => ?_⟩
  unfold oneCycleLR
  simp [ht]

/-- C5: on a loader yielding at least one batch (batches are nonempty — the data
loaders are built with a positive batch size and `drop_last=True`), the evaluator
returns the mean loss equal to the sum over batches of per-batch loss times batch
example count, divided by the total example count; the accuracy equal to the
number of correct examples divided by the total example count, lying in `[0, 1]`;
and, when the criterion is nonnegative, a nonnegative mean loss. -/
theorem C5_evaluator_aggregates {I O T : Type} (f : I → O)
    (criterion : List (O × T) → ℚ) (correct : O → T → Bool)
    (loader : List (List (I × T))) (m : Bool)
    (hne : loader ≠ []) (hbs : ∀ b ∈ loader, b ≠ []) :
    get_accuracy_and_loss loader (pureModel f) criterion correct m =
      (Except.ok ((correctTotal f correct loader : ℚ) / (totalCount loader : ℚ),
                  weightedLossSum f criterion loader / (totalCount loader : ℚ)),
       true) ∧
    0 ≤ (correctTotal f correct loader : ℚ) / (totalCount loader : ℚ) ∧
    (correctTotal f correct loader : ℚ) / (totalCount loader : ℚ) ≤ 1 ∧
    ((∀ ps : List (O × T), 0 ≤ criterion ps) →
      0 ≤ weightedLossSum f criterion loader / (totalCount loader : ℚ)) := by
  have hT : 0 < totalCount loader := totalCount_pos loader hne hbs
  have hTQ : (0 : ℚ) < (totalCount loader : ℚ) := by exact_mod_cast hT
  refine ⟨gaal_pure f criterion correct loader m (by omega), ?_, ?_, ?_⟩
  · positivity
  · rw [div_le_one hTQ]
    exact_mod_cast correctTotal_le_totalCount f correct loader
  · intro hcrit
    apply div_nonneg _ (le_of_lt hTQ)
    apply List.sum_nonneg
    intro x hx
    simp only [List.mem_map] at hx
    obtain ⟨b, hb, rfl⟩ := hx
    exact mul_nonneg (hcrit _) (by positivity)

/-- C5 witness: a two-batch loader with uneven batch sizes (one example, then two)
satisfies the hypotheses, and the returned accuracy is at most one. -/
theorem C5_evaluator_aggregates_witness :
    (([[((0 : ℚ), (0 : ℚ))], [(1, 0), (0, 0)]] : List (List (ℚ × ℚ))) ≠ []) ∧
    (∀ b ∈ ([[((0 : ℚ), (0 : ℚ))], [(1, 0), (0, 0)]] : List (List (ℚ × ℚ))), b ≠ []) ∧
    (correctTotal id (fun o t : ℚ => o == t)
        [[((0 : ℚ), (0 : ℚ))], [(1, 0), (0, 0)]] : ℚ) /
      (totalCount [[((0 : ℚ), (0 : ℚ))], [(1, 0), (0, 0)]] : ℚ) ≤ 1 :=
  ⟨by simp, by simp,
    (C5_evaluator_aggregates id (fun _ => 1) (fun o t => o == t)
      [[((0 : ℚ), (0 : ℚ))], [(1, 0), (0, 0)]] true (by simp) (by simp)).2.2.1⟩

/-! Loop controller lemmas for C3. -/

/-- A pass started below the budget advances the step counter to
`min (start + batches remaining) total_steps`: one step per batch, stopping the
moment the budget is reached. -/
theorem runBatches_numSteps (total freq rem : ℕ) : ∀ (i : ℕ) (s : LoopState),
    s.numSteps < total →
    (runBatches total freq i rem s).numSteps = min (s.numSteps + rem) total := by
  induction rem with
  | zero =>
    intro i s h
    simp only [runBatches]
    omega
  | succ rem ih =>
    intro i s h
    simp only [runBatches]
    by_cases hb : total ≤ s.numSteps + 1
    · rw [if_pos hb]
      dsimp only
      omega
    · rw [if_neg hb]
      rw [ih]
      · dsimp only
        omega
      · dsimp only
        omega

/-- If a pass started below the budget has enough batches left to reach it, the
last evaluation it records happens at step `total_steps` — the forced evaluation
fired by `num_steps >= total_steps` just before the `break`. -/
theorem runBatches_lastEval (total freq rem : ℕ) : ∀ (i : ℕ) (s : LoopState),
    s.numSteps < total → total ≤ s.numSteps + rem →
    (runBatches total freq i rem s).evalSteps.getLast? = some total := by
  induction rem with
  | zero =>
    intro i s h1 h2
    exact absurd h2 (by omega)
  | succ rem ih =>
    intro i s h1 h2
    simp only [runBatches]
    by_cases hb : total ≤ s.numSteps + 1
    · have hcond : (i + 1) % freq = 0 ∨ total ≤ s.numSteps + 1 := Or.inr hb
      rw [if_pos hb, if_pos hcond]
      dsimp only
      have hts : s.numSteps + 1 = total := by omega
      rw [hts]
      exact List.getLast?_concat _
    · rw [if_neg hb]
      apply ih
      · dsimp only
        omega
      · dsimp only
        omega

/-- A loop started at or past the budget exits at once with the state unchanged. -/
theorem runLoop_stopped (total freq batches fuel : ℕ) (s : LoopState)
    (h : total ≤ s.numSteps) : runLoop total freq batches fuel s = some s := by
  cases fuel with
  | zero =>
    rw [runLoop, if_neg (by omega)]
  | succ fuel =>
    rw [runLoop, if_neg (by omega)]

/-- With at least one batch per pass and enough fuel, the loop terminates with
exactly `total_steps` completed steps and a final recorded evaluation at step
`total_steps`. -/
theorem runLoop_total (total freq batches : ℕ) (hb : 1 ≤ batches) :
    ∀ (fuel : ℕ) (s : LoopState), s.numSteps < total → total ≤ s.numSteps + fuel →
    ∃ final, runLoop total freq batches fuel s = some final ∧
      final.numSteps = total ∧ final.evalSteps.getLast? = some total := by
  intro fuel
  induction fuel with
  | zero =>
    intro s h1 h2
    exact absurd h2 (by omega)
  | succ fuel ih =>
    intro s h1 h2
    rw [runLoop, if_pos h1]
    have hsteps : (runBatches total freq 0 batches s).numSteps =
        min (s.numSteps + batches) total :=
      runBatches_numSteps total freq batches 0 s h1
    by_cases hdone : total ≤ (runBatches total freq 0 batches s).numSteps
    · have hlast : (runBatches total freq 0 batches s).evalSteps.getLast? = some total :=
        runBatches_lastEval total freq batches 0 s h1 (by omega)
      exact ⟨runBatches total freq 0 batches s,
        runLoop_stopped total freq batches fuel _ hdone, by omega, hlast⟩
    · exact ih (runBatches total freq 0 batches s) (by omega) (by omega)

/-- C3 counterexample: with a training loader yielding zero batches per pass (a
training set smaller than the batch size, all batches dropped by
`drop_last=True`) and budget `1`, one full pass of the loop body is the identity
on the loop state while the `while num_steps < total_steps` condition still
holds — the purely state-determined loop therefore never terminates and never
performs any evaluation (`runLoop` still reports "running" after 50 passes),
refuting, for arbitrary loader contents, both termination at the bound and the
forced evaluation before exit. -/
theorem C3_empty_loader_no_termination :
    runBatches 1 2000 0 0 initLoopState = initLoopState ∧
    initLoopState.numSteps < 1 ∧
    runLoop 1 2000 0 50 initLoopState = none := by
  refine ⟨rfl, by simp [initLoopState], by decide⟩

/-- C3 (amended): for a positive step budget and a training loader yielding at
least one batch per pass, the loop terminates with exactly `total_steps` completed
optimizer steps — it breaks the instant the counter reaches the bound, even
mid-pass, never completing one more step — and the last recorded evaluation is the
forced one at step `total_steps`, performed before the loop exits.  (With an empty
training loader the loop never terminates, and a non-positive budget never reaches
the loop: the schedule construction rejects it.) -/
theorem C3_step_budget (total freq batches : ℕ) (htotal : 1 ≤ total) (hb : 1 ≤ batches) :
    ∃ final, runLoop total freq batches total initLoopState = some final ∧
      final.numSteps = total ∧ final.evalSteps.getLast? = some total := by
  apply runLoop_total total freq batches hb total initLoopState
  · simpa [initLoopState] using htotal
  · simp [initLoopState]

/-- C3 witness: budget 3, evaluation cadence 2, two batches per pass — the loop
stops after exactly 3 steps, breaking mid-pass, with the forced evaluation
recorded at step 3. -/
theorem C3_step_budget_witness :
    ((1 : ℕ) ≤ 3 ∧ (1 : ℕ) ≤ 2) ∧
    ∃ final, runLoop 3 2 2 3 initLoopState = some final ∧
      final.numSteps = 3 ∧ final.evalSteps.getLast? = some 3 :=
  ⟨⟨by omega, by omega⟩, C3_step_budget 3 2 2 (by omega) (by omega)⟩

/-- C8 witness: a run configured with step budget `0` is rejected by the schedule
construction. -/
theorem C8_reporter_and_schedule_witness :
    ((0 : ℤ) ≤ 0) ∧ oneCycleLR 0 = Except.error ConfigError.valueError :=
  ⟨le_refl 0, C8_reporter_and_schedule.2 0 (le_refl 0)⟩

/-! ## FEN encoding lemmas for C7 -/

/-- Decoding a piece letter recovers the piece. -/
theorem pieceOfChar_pieceChar (p : Pc) : pieceOfChar (pieceChar p) = some p := by
  cases p <;> rfl

/-- No piece letter is one of the digits `1`..`8`. -/
theorem pieceChar_not_digit (p : Pc) : ¬(49 ≤ pieceChar p ∧ pieceChar p ≤ 56) := by
  cases p <;> simp [pieceChar]

/-- No piece letter is the slash separating ranks. -/
theorem pieceChar_ne_slash (p : Pc) : pieceChar p ≠ 47 := by
  cases p <;> simp [pieceChar]

/-- The rank encoding is lossless: decoding `encRank r n` recovers the `n` pending
empty squares followed by `r`, provided the rank fits on a chess board (so every
run of empty squares is a single digit `1`..`8`). -/
theorem decRank_encRank : ∀ (r : Rank) (n : ℕ), n + r.length ≤ 8 →
    decRank (encRank r n) = some (List.replicate n none ++ r) := by
  intro r
  induction r with
  | nil =>
    intro n hn
    cases n with
    | zero => rfl
    | succ k =>
      show decRank [48 + (k + 1)] = _
      simp only [decRank]
      rw [if_pos ⟨by omega, by simp at hn; omega⟩]
      have h48 : 48 + (k + 1) - 48 = k + 1 := by omega
      simp [h48]
  | cons sq rest ih =>
    intro n hn
    simp only [List.length_cons] at hn
    cases sq with
    | none =>
      show decRank (encRank rest (n + 1)) = _
      rw [ih (n + 1) (by omega)]
      rw [List.replicate_succ', List.append_assoc]
      rfl
    | some p =>
      cases n with
      | zero =>
        show decRank (pieceChar p :: encRank rest 0) = _
        simp only [decRank]
        rw [if_neg (pieceChar_not_digit p), pieceOfChar_pieceChar,
          ih 0 (by omega)]
        simp
      | succ k =>
        show decRank ((48 + (k + 1)) :: pieceChar p :: encRank rest 0) = _
        simp only [decRank]
        rw [if_neg (pieceChar_not_digit p), pieceOfChar_pieceChar,
          ih 0 (by omega)]
        rw [if_pos ⟨by omega, by omega⟩]
        have h48 : 48 + (k + 1) - 48 = k + 1 := by omega
        simp [h48]

/-- The rank encoding is injective on ranks that fit on a chess board. -/
theorem encRank_inj (r1 r2 : Rank) (h1 : r1.length ≤ 8) (h2 : r2.length ≤ 8)
    (h : encRank r1 0 = encRank r2 0) : r1 = r2 := by
  have e1 := decRank_encRank r1 0 (by omega)
  have e2 := decRank_encRank r2 0 (by omega)
  rw [h, e2] at e1
  simpa using e1.symm

/-- The slash never occurs inside an encoded rank (its characters are the digits
`49`..`56` and the piece letters). -/
theorem slash_not_mem_encRank : ∀ (r : Rank) (n : ℕ), 47 ∉ encRank r n := by
  intro r
  induction r with
  | nil =>
    intro n
    cases n with
    | zero => simp [encRank]
    | succ k =>
      show 47 ∉ [48 + (k + 1)]
      simp
      omega
  | cons sq rest ih =>
    intro n
    cases sq with
    | none => exact ih (n + 1)
    | some p =>
      cases n with
      | zero =>
        show 47 ∉ pieceChar p :: encRank rest 0
        intro hmem
        rcases List.mem_cons.mp hmem with h | h
        · exact pieceChar_ne_slash p h.symm
        · exact ih 0 h
      | succ k =>
        show 47 ∉ (48 + (k + 1)) :: pieceChar p :: encRank rest 0
        intro hmem
        rcases List.mem_cons.mp hmem with h | h
        · omega
        · rcases List.mem_cons.mp h with h2 | h2
          · exact pieceChar_ne_slash p h2.symm
          · exact ih 0 h2

/-- Mapping the rank encoding over two lists of board-sized ranks is injective. -/
theorem map_encRank_inj : ∀ (l1 l2 : Board), (∀ r ∈ l1, r.length ≤ 8) →
    (∀ r ∈ l2, r.length ≤ 8) →
    l1.map (fun r => encRank r 0) = l2.map (fun r => encRank r 0) → l1 = l2 := by
  intro l1
  induction l1 with
  | nil =>
    intro l2 _ _ h
    cases l2 with
    | nil => rfl
    | cons b bs => simp at h
  | cons a as ih =>
    intro l2 h1 h2 h
    cases l2 with
    | nil => simp at h
    | cons b bs =>
      simp only [List.map_cons, List.cons.injEq] at h
      have ha := encRank_inj a b (h1 a (by simp)) (h2 b (by simp)) h.1
      have hs := ih bs (fun r hr => h1 r (by simp [hr])) (fun r hr => h2 r (by simp [hr])) h.2
      rw [ha, hs]

/-- The FEN string determines the board: two well-formed decoded boards with the
same FEN string are equal. -/
theorem fen_inj (b1 b2 : Board) (h1 : wellFormed b1) (h2 : wellFormed b2)
    (h : fen b1 = fen b2) : b1 = b2 := by
  unfold fen at h
  have h' := List.append_cancel_right h
  have e1 : (List.intercalate [47] (b1.map (fun r => encRank r 0))).splitOn 47 =
      b1.map (fun r => encRank r 0) := by
    apply List.splitOn_intercalate
    · intro l hl
      simp only [List.mem_map] at hl
      obtain ⟨r, _, rfl⟩ := hl
      exact slash_not_mem_encRank r 0
    · simp only [ne_eq, List.map_eq_nil_iff]
      intro hnil
      rw [hnil] at h1
      simp [wellFormed] at h1
  have e2 : (List.intercalate [47] (b2.map (fun r => encRank r 0))).splitOn 47 =
      b2.map (fun r => encRank r 0) := by
    apply List.splitOn_intercalate
    · intro l hl
      simp only [List.mem_map] at hl
      obtain ⟨r, _, rfl⟩ := hl
      exact slash_not_mem_encRank r 0
    · simp only [ne_eq, List.map_eq_nil_iff]
      intro hnil
      rw [hnil] at h2
      simp [wellFormed] at h2
  have hmap : b1.map (fun r => encRank r 0) = b2.map (fun r => encRank r 0) := by
    rw [← e1, ← e2, h']
  exact map_encRank_inj b1 b2 (fun r hr => le_of_eq (h1.2 r hr))
    (fun r hr => le_of_eq (h2.2 r hr)) hmap

/-- C7: in the board-recognition evaluator, an example is counted correct exactly
when the decoded output board's FEN string equals the decoded target board's FEN
string; hence two well-formed decoded boards that differ in at least one square's
occupant are never counted correct, regardless of how many of the other squares
match, because the FEN encoding is injective on well-formed boards. -/
theorem C7_board_textual_match (o t : Board) (ho : wellFormed o) (ht : wellFormed t)
    (i j : ℕ) (hdiff : (o.getD i []).getD j none ≠ (t.getD i []).getD j none) :
    correctBoard o t = false ∧ (correctBoard o t = true ↔ fen o = fen t) := by
  have hiff : correctBoard o t = true ↔ fen o = fen t := by
    simp [correctBoard]
  refine ⟨?_, hiff⟩
  have hne : o ≠ t := by
    intro he
    rw [he] at hdiff
    exact hdiff rfl
  have hfen : fen o ≠ fen t := fun hf => hne (fen_inj o t ho ht hf)
  rw [Bool.eq_false_iff, Ne, hiff]
  exact hfen

/-- C7 witness: the empty board and the board holding a single white knight on its
top-left square differ in exactly one square's occupant; they are well formed, and
the evaluator's per-example test rejects the pair. -/
theorem C7_board_textual_match_witness :
    wellFormed (List.replicate 8 (List.replicate 8 (none : Option Pc))) ∧
    wellFormed ((some Pc.wN :: List.replicate 7 none) ::
      List.replicate 7 (List.replicate 8 (none : Option Pc))) ∧
    ((List.replicate 8 (List.replicate 8 (none : Option Pc))).getD 0 []).getD 0 none ≠
      (((some Pc.wN :: List.replicate 7 none) ::
        List.replicate 7 (List.replicate 8 (none : Option Pc))).getD 0 []).getD 0 none ∧
    correctBoard (List.replicate 8 (List.replicate 8 (none : Option Pc)))
      ((some Pc.wN :: List.replicate 7 none) ::
        List.replicate 7 (List.replicate 8 (none : Option Pc))) = false :=
  ⟨by unfold wellFormed; decide, by unfold wellFormed; decide, by decide,
    (C7_board_textual_match _ _ (by unfold wellFormed; decide)
      (by unfold wellFormed; decide) 0 0 (by decide)).1⟩

end ChessDiagramToFen
